import Mathlib

/-!
# Verification of the cyacd-to-binary converter

A shallow embedding of `cyacd2bin.py`: the program converts a line-oriented,
hex-encoded firmware-update format (cyacd) into a flat binary image.  Bytes are
modelled as `Nat` (with explicit `% 0x100` where the code wraps), byte strings
as `List Nat`, and text lines as `List Char`.  The Python `construct` structs
become explicit stream parsers consuming a prefix of a byte list (the library's
`parse` ignores trailing bytes, and its `Enum` decodes an unknown value to the
raw integer rather than failing — both behaviours are preserved here).  The
ordered Python dictionaries become insertion-ordered association lists.
-/

namespace Cyacd

/-- Error taxonomy of the converter (the spec's names for the exceptions the
Python code raises: `binascii.Error` / `construct.StreamError` on malformed
input, `construct.ChecksumError` on a checksum mismatch). -/
inductive CyacdError where
  | MalformedHeader
  | MalformedRecord
  | ChecksumMismatch
deriving DecidableEq, Repr

/-- A decoded flash row record: `FLASH_ROW_STRUCT`'s fields as consumed by
`parse_cyacd` (`array_id`, `row_id`, `data`; the explicit `data_length` is
`data.length`, and the checksum byte is consumed during decode). -/
structure FlashRecord where
  array_id : Nat
  row_id : Nat
  data : List Nat
deriving DecidableEq, Repr

/-- The decoded cyacd header: `CYACD_HEADER_STRUCT` (`silicon_id` 4 bytes
big-endian, `silicon_revision` 1 byte, `checksum_type` tag byte; the
`construct` Enum keeps an unknown tag as its raw integer, so the tag is
modelled as the raw byte value). -/
structure CyacdHeader where
  silicon_id : Nat
  silicon_revision : Nat
  checksum_type : Nat
deriving DecidableEq, Repr

/-- Big-endian integer value of a byte string (how `Int32ub` / `Int16ub` /
`Byte` interpret the bytes they read). -/
def beValue (bs : List Nat) : Nat :=
  bs.foldl (fun acc b => acc * 256 + b) 0

/-- Read `n` bytes from the front of a byte stream, returning them and the
rest; fails when fewer than `n` bytes remain (a `construct` `StreamError`). -/
def takeBytes : Nat → List Nat → Option (List Nat × List Nat)
  | 0, s => some ([], s)
  | _ + 1, [] => none
  | n + 1, b :: s =>
    match takeBytes n s with
    | none => none
    | some (xs, rest) => some (b :: xs, rest)

/-- The record checksum of `FLASH_ROW_STRUCT`:
`lambda data: (0x100 - (sum(data) & 0xFF)) % 0x100` applied to the raw bytes
of the four fields (`&0xFF` on a non-negative sum is `% 0x100`). -/
def checksum (b : List Nat) : Nat :=
  (0x100 - b.sum % 0x100) % 0x100

/-- `FLASH_ROW_STRUCT.parse` on already hex-decoded bytes: read
`array_id:1 ‖ row_id:2 ‖ data_length:2 ‖ data:data_length ‖ checksum:1`
(big-endian), compute the two's-complement checksum over the raw bytes of the
four fields (the `RawCopy`), and fail with `ChecksumMismatch` when it differs
from the stored byte.  Bytes remaining after the checksum are ignored, as
`construct`'s `parse` does not require the stream to be exhausted. -/
def parseFlashRow (s : List Nat) : Except CyacdError FlashRecord :=
  match takeBytes 1 s with
  | none => .error .MalformedRecord
  | some (aBytes, s1) =>
    match takeBytes 2 s1 with
    | none => .error .MalformedRecord
    | some (rBytes, s2) =>
      match takeBytes 2 s2 with
      | none => .error .MalformedRecord
      | some (lBytes, s3) =>
        match takeBytes (beValue lBytes) s3 with
        | none => .error .MalformedRecord
        | some (dBytes, s4) =>
          match takeBytes 1 s4 with
          | none => .error .MalformedRecord
          | some (cBytes, _) =>
            if checksum (aBytes ++ rBytes ++ lBytes ++ dBytes) = beValue cBytes then
              .ok ⟨beValue aBytes, beValue rBytes, dBytes⟩
            else
              .error .ChecksumMismatch

/-- `CYACD_HEADER_STRUCT.parse` on already hex-decoded bytes: read
`silicon_id:4 ‖ silicon_revision:1 ‖ checksum_type:1`.  The `construct` Enum
decodes an unrecognised tag to the raw integer (no failure), and trailing
bytes are ignored by `parse`. -/
def parseHeader (s : List Nat) : Except CyacdError CyacdHeader :=
  match takeBytes 4 s with
  | none => .error .MalformedHeader
  | some (sid, s1) =>
    match takeBytes 1 s1 with
    | none => .error .MalformedHeader
    | some (rev, s2) =>
      match takeBytes 1 s2 with
      | none => .error .MalformedHeader
      | some (ct, _) => .ok ⟨beValue sid, beValue rev, beValue ct⟩

/-- Value of an ASCII hex digit, as `binascii.unhexlify` accepts them
(`0-9`, `a-f`, `A-F`). -/
def hexDigitValue (c : Char) : Option Nat :=
  if '0' ≤ c ∧ c ≤ '9' then some (c.toNat - '0'.toNat)
  else if 'a' ≤ c ∧ c ≤ 'f' then some (c.toNat - 'a'.toNat + 10)
  else if 'A' ≤ c ∧ c ≤ 'F' then some (c.toNat - 'A'.toNat + 10)
  else none

/-- `binascii.unhexlify`: pairs of hex digits to bytes; fails on an odd-length
input or a non-hex character; the empty string decodes to the empty byte
string. -/
def unhexlify : List Char → Option (List Nat)
  | [] => some []
  | [_] => none
  | c1 :: c2 :: rest =>
    match hexDigitValue c1, hexDigitValue c2, unhexlify rest with
    | some hi, some lo, some bs => some ((hi * 16 + lo) :: bs)
    | _, _, _ => none

/-- The ASCII whitespace stripped by Python's `bytes.strip()`. -/
def isPySpace (c : Char) : Bool :=
  c = ' ' ∨ c = '\t' ∨ c = '\n' ∨ c = '\r' ∨ c = '\x0b' ∨ c = '\x0c'

/-- Python `line.strip()`: remove whitespace from both ends. -/
def stripWs (l : List Char) : List Char :=
  ((l.dropWhile isPySpace).reverse.dropWhile isPySpace).reverse

/-- Python `line.lstrip(b':')`: remove leading colons. -/
def lstripColon (l : List Char) : List Char :=
  l.dropWhile (fun c => c = ':')

/-- A flash array: `row_id → data`, an insertion-ordered dictionary. -/
abbrev FlashArray := List (Nat × List Nat)

/-- The flash memory: `array_id → FlashArray`, an insertion-ordered
dictionary. -/
abbrev FlashMemory := List (Nat × FlashArray)

/-- Python dict lookup on the association-list model. -/
def lookupAssoc {α : Type} : List (Nat × α) → Nat → Option α
  | [], _ => none
  | (k, v) :: rest, key => if key = k then some v else lookupAssoc rest key

/-- Python dict assignment `m[k] = v`: an existing key keeps its position with
the new value; a new key is appended (Python 3.7+ insertion order). -/
def updateAssoc {α : Type} : List (Nat × α) → Nat → α → List (Nat × α)
  | [], k, v => [(k, v)]
  | (k', v') :: rest, k, v =>
    if k = k' then (k, v) :: rest else (k', v') :: updateAssoc rest k v

/-- `_add_row_to_array`: create the array's dictionary if absent, then store
`flash_memory[array_id][row_id] = row_data` (last write wins). -/
def addRowToArray (mem : FlashMemory) (array_id row_id : Nat) (row_data : List Nat) :
    FlashMemory :=
  match lookupAssoc mem array_id with
  | none => updateAssoc mem array_id [(row_id, row_data)]
  | some arr => updateAssoc mem array_id (updateAssoc arr row_id row_data)

/-- Lookup of one row's data across the two-level mapping. -/
def lookupRow (mem : FlashMemory) (array_id row_id : Nat) : Option (List Nat) :=
  match lookupAssoc mem array_id with
  | none => none
  | some arr => lookupAssoc arr row_id

/-- `max(flash_array.keys())` (meaningful on a non-empty array; Python raises
on an empty one, which the caller model turns into `none`). -/
def maxKey (arr : FlashArray) : Nat :=
  (arr.map Prod.fst).foldl Nat.max 0

/-- The fill byte for absent rows: `b'\x00' if default_bit_value == '0' else
b'\xFF'` (the CLI restricts the argument to the strings `'0'` and `'1'`). -/
def fillByte (default_bit_value : Char) : Nat :=
  if default_bit_value = '0' then 0x00 else 0xFF

/-- `_write_flash_array_to_file`: emit rows `0 .. max_row` in ascending order,
a present row's stored bytes verbatim, an absent row as `row_length` copies of
the fill byte, where `row_length` is the length of the first-inserted row's
data (`len(next(iter(flash_array.values())))`).  On an empty array Python
raises (`max()` of an empty sequence), modelled as `none`. -/
def writeFlashArray (arr : FlashArray) (default_bit_value : Char) : Option (List Nat) :=
  match arr with
  | [] => none
  | (_, d0) :: _ =>
    some (((List.range (maxKey arr + 1)).map (fun row_id =>
      match lookupAssoc arr row_id with
      | some d => d
      | none => List.replicate d0.length (fillByte default_bit_value))).flatten)

/-- `_write_flash_memory_to_files`: concatenate each array's image in
first-seen order into the single output file.  An empty memory or an empty
array makes Python raise before/while writing, modelled as `none`. -/
def writeFlashMemory (mem : FlashMemory) (default_bit_value : Char) : Option (List Nat) :=
  match mem with
  | [] => none
  | _ => ((mem.mapM (fun p => writeFlashArray p.2 default_bit_value)).map List.flatten)

/-- One record line of `parse_cyacd`'s loop:
`_parse_flash_row(line.lstrip(b':').strip())` — leading colons stripped first,
then surrounding whitespace, then hex-decode and parse. -/
def parseRecordLine (line : List Char) : Except CyacdError FlashRecord :=
  match unhexlify (stripWs (lstripColon line)) with
  | none => .error .MalformedRecord
  | some bs => parseFlashRow bs

/-- The record loop of `parse_cyacd`: every line after the header is decoded
as a flash row and inserted; the first failure aborts. -/
def parseCyacdLines : List (List Char) → FlashMemory → Except CyacdError FlashMemory
  | [], mem => .ok mem
  | line :: rest, mem =>
    match parseRecordLine line with
    | .error e => .error e
    | .ok r => parseCyacdLines rest (addRowToArray mem r.array_id r.row_id r.data)

/-- All record lines folded into an initially empty flash memory. -/
def parseAllLines (lines : List (List Char)) : Except CyacdError FlashMemory :=
  parseCyacdLines lines []

/-- `_print_header` without the printing: `input_file.readline().strip()`
hex-decoded and parsed as the header. -/
def parseHeaderLine (line : List Char) : Except CyacdError CyacdHeader :=
  match unhexlify (stripWs line) with
  | none => .error .MalformedHeader
  | some bs => parseHeader bs

/-- `parse_cyacd`: decode the header line, fold every remaining line into the
flash memory, and only then write the assembled memory out.  The output file
is opened inside `_write_flash_memory_to_files`, after the whole input has
been consumed, so an error on any line yields no output at all. -/
def convertCyacd (headerLine : List Char) (lines : List (List Char))
    (default_bit_value : Char) : Except CyacdError (Option (List Nat)) :=
  match parseHeaderLine headerLine with
  | .error e => .error e
  | .ok _ =>
    match parseAllLines lines with
    | .error e => .error e
    | .ok mem => .ok (writeFlashMemory mem default_bit_value)

/-- Insertion of a list of already decoded records, as the driver performs it. -/
def insertRecords (recs : List FlashRecord) (mem : FlashMemory) : FlashMemory :=
  recs.foldl (fun m r => addRowToArray m r.array_id r.row_id r.data) mem

/-- What the image writer emits for one row id when the common row width is
`w`: the stored data when the row is present, `w` fill bytes otherwise. -/
def rowOutput (arr : FlashArray) (w : Nat) (default_bit_value : Char) (row_id : Nat) :
    List Nat :=
  match lookupAssoc arr row_id with
  | some d => d
  | none => List.replicate w (fillByte default_bit_value)

/-! ## Helper lemmas -/

theorem beValue_single (x : Nat) : beValue [x] = x := by
  simp [beValue]

theorem beValue_pair (x y : Nat) : beValue [x, y] = x * 256 + y := by
  simp [beValue]

theorem takeBytes_one (b : Nat) (s : List Nat) : takeBytes 1 (b :: s) = some ([b], s) := rfl

theorem takeBytes_two (b1 b2 : Nat) (s : List Nat) :
    takeBytes 2 (b1 :: b2 :: s) = some ([b1, b2], s) := rfl

theorem takeBytes_exact (l rest : List Nat) : takeBytes l.length (l ++ rest) = some (l, rest) := by
  induction l with
  | nil => rfl
  | cons b t ih => simp [takeBytes, ih]

/-- Reduction of the record parser on an input framed as the five fixed header
bytes, `data` of the declared length, the checksum byte, and arbitrary
trailing bytes. -/
theorem parseFlashRow_framed (a r1 r0 l1 l0 c : Nat) (data rest : List Nat)
    (hlen : data.length = l1 * 256 + l0) :
    parseFlashRow ([a, r1, r0, l1, l0] ++ data ++ c :: rest) =
      if checksum ([a, r1, r0, l1, l0] ++ data) = c then
        Except.ok ⟨a, r1 * 256 + r0, data⟩
      else Except.error CyacdError.ChecksumMismatch := by
  have hdata : takeBytes (l1 * 256 + l0) (data ++ c :: rest) = some (data, c :: rest) := by
    rw [← hlen, takeBytes_exact]
  show parseFlashRow (a :: r1 :: r0 :: l1 :: l0 :: (data ++ c :: rest)) = _
  simp only [parseFlashRow, takeBytes_one, takeBytes_two, beValue_pair, hdata, beValue_single]
  simp [checksum]

/-! ## Claim theorems -/

/-- C1: on an input that decodes to exactly
`array_id ‖ row_id ‖ data_length ‖ data ‖ checksum` with `data` of the
declared length, the record decoder computes the two's-complement checksum
`(0x100 - sum % 0x100) % 0x100` over the bytes of the four fields, returns
`FlashRecord` with those fields when it equals the trailing byte, and fails
with `ChecksumMismatch` otherwise. -/
theorem record_decoder_checksum_correct (a r1 r0 l1 l0 c : Nat) (data : List Nat)
    (hlen : data.length = l1 * 256 + l0) :
    parseFlashRow ([a, r1, r0, l1, l0] ++ data ++ [c]) =
      if checksum ([a, r1, r0, l1, l0] ++ data) = c then
        Except.ok ⟨a, r1 * 256 + r0, data⟩
      else Except.error CyacdError.ChecksumMismatch :=
  parseFlashRow_framed a r1 r0 l1 l0 c data [] hlen

/-- Witness for C1 at the record `00 0000 0001 AA 55` (checksum correct) —
the decoder accepts it and returns array 0, row 0, data `[0xAA]`. -/
theorem record_decoder_checksum_correct_witness :
    parseFlashRow ([0, 0, 0, 0, 1] ++ [0xAA] ++ [0x55]) =
      (if checksum ([0, 0, 0, 0, 1] ++ [0xAA]) = 0x55 then
        Except.ok ⟨0, 0 * 256 + 0, [0xAA]⟩
      else Except.error CyacdError.ChecksumMismatch) :=
  record_decoder_checksum_correct 0 0 0 0 1 0x55 [0xAA] (by decide)

/-- C7: for every byte sequence, the sum of the bytes plus their checksum
wraps to zero modulo 0x100, and the checksum itself is a byte value. -/
theorem checksum_cancels_sum (b : List Nat) :
    (b.sum + checksum b) % 0x100 = 0 ∧ checksum b ≤ 0xFF := by
  unfold checksum
  omega

/-- C10: bytes remaining after the checksum byte of a well-formed record are
silently ignored — the decoder returns the same `FlashRecord` as for the
input without them. -/
theorem trailing_bytes_ignored (a r1 r0 l1 l0 c : Nat) (data extra : List Nat)
    (hlen : data.length = l1 * 256 + l0) (_hextra : extra ≠ [])
    (hck : checksum ([a, r1, r0, l1, l0] ++ data) = c) :
    parseFlashRow ([a, r1, r0, l1, l0] ++ data ++ c :: extra) =
        Except.ok ⟨a, r1 * 256 + r0, data⟩ ∧
      parseFlashRow ([a, r1, r0, l1, l0] ++ data ++ [c]) =
        Except.ok ⟨a, r1 * 256 + r0, data⟩ := by
  rw [parseFlashRow_framed a r1 r0 l1 l0 c data extra hlen,
    parseFlashRow_framed a r1 r0 l1 l0 c data [] hlen, if_pos hck]
  exact ⟨rfl, rfl⟩

/-- Witness for C10: the record `00 0000 0001 AA 55` followed by the stray
byte `0x99` decodes to the same record as without it. -/
theorem trailing_bytes_ignored_witness :
    parseFlashRow ([0, 0, 0, 0, 1] ++ [0xAA] ++ 0x55 :: [0x99]) =
        Except.ok ⟨0, 0 * 256 + 0, [0xAA]⟩ ∧
      parseFlashRow ([0, 0, 0, 0, 1] ++ [0xAA] ++ [0x55]) =
        Except.ok ⟨0, 0 * 256 + 0, [0xAA]⟩ :=
  trailing_bytes_ignored 0 0 0 0 1 0x55 [0xAA] [0x99] (by decide) (by decide) (by decide)

/-- C4 counterexample: the header bytes `00 00 00 01 00 02 03` are 7 bytes
long (not 6) and carry the checksum-type tag `2` (neither 0 nor 1), yet the
header decoder accepts them — `construct`'s `parse` ignores trailing bytes
and its `Enum` decodes an unknown tag to the raw integer. -/
theorem header_decoder_counterexample :
    parseHeader [0x00, 0x00, 0x00, 0x01, 0x00, 0x02, 0x03] =
        Except.ok ⟨1, 0, 2⟩ ∧
      parseHeader [0x00, 0x00, 0x00, 0x01, 0x00, 0x02, 0x03] ≠
        Except.error CyacdError.MalformedHeader := by
  refine ⟨rfl, ?_⟩
  intro h
  rw [show parseHeader [0x00, 0x00, 0x00, 0x01, 0x00, 0x02, 0x03] =
    Except.ok ⟨1, 0, 2⟩ from rfl] at h
  exact Except.noConfusion h

/-- C4 amended: the header decoder fails exactly when hex decoding fails or
fewer than 6 decoded bytes are available; on 6 or more bytes it succeeds
regardless of the checksum-type tag value, decoding the tag to its raw byte
and ignoring any bytes past the sixth. -/
theorem header_decoder_amended (b0 b1 b2 b3 b4 b5 : Nat) (rest bs : List Nat)
    (line : List Char) (hshort : bs.length < 6)
    (hhex : unhexlify (stripWs line) = none) :
    parseHeader (b0 :: b1 :: b2 :: b3 :: b4 :: b5 :: rest) =
        Except.ok ⟨beValue [b0, b1, b2, b3], b4, b5⟩ ∧
      parseHeader bs = Except.error CyacdError.MalformedHeader ∧
      parseHeaderLine line = Except.error CyacdError.MalformedHeader := by
  refine ⟨?_, ?_, by rw [parseHeaderLine, hhex]⟩
  · have h4 : takeBytes 4 (b0 :: b1 :: b2 :: b3 :: b4 :: b5 :: rest) =
        some ([b0, b1, b2, b3], b4 :: b5 :: rest) := rfl
    simp only [parseHeader, h4, takeBytes_one, beValue_single]
  · match bs, hshort with
    | [], _ => rfl
    | [x0], _ => rfl
    | [x0, x1], _ => rfl
    | [x0, x1, x2], _ => rfl
    | [x0, x1, x2, x3], _ => rfl
    | [x0, x1, x2, x3, x4], _ => rfl
    | x0 :: x1 :: x2 :: x3 :: x4 :: x5 :: t, h =>
      simp only [List.length_cons] at h
      omega

/-- Witness for C4 (amended): a 6-byte header with the unknown tag 2 decodes
successfully, the empty byte string is rejected, and a non-hex header line is
rejected. -/
theorem header_decoder_amended_witness :
    parseHeader [0, 0, 0, 1, 0, 2] = Except.ok ⟨beValue [0, 0, 0, 1], 0, 2⟩ ∧
      parseHeader [] = Except.error CyacdError.MalformedHeader ∧
      parseHeaderLine ['g', 'g'] = Except.error CyacdError.MalformedHeader :=
  header_decoder_amended 0 0 0 1 0 2 [] [] ['g', 'g'] (by decide) (by decide)

theorem lookupAssoc_mem {α : Type} {m : List (Nat × α)} {k : Nat} {v : α}
    (h : lookupAssoc m k = some v) : (k, v) ∈ m := by
  induction m with
  | nil => exact absurd h (by simp [lookupAssoc])
  | cons p rest ih =>
    obtain ⟨k', v'⟩ := p
    rw [lookupAssoc] at h
    split at h
    · next hk =>
      injection h with h
      subst hk
      subst h
      exact List.mem_cons_self _ _
    · exact List.mem_cons_of_mem _ (ih h)

/-- C2: on a non-empty array whose rows all have width `w`, the image writer
emits rows `0 .. maxKey` in ascending order — present rows verbatim, absent
rows as `w` fill bytes — for a total of `(maxKey + 1) * w` bytes; in
particular `{0 ↦ AA AA, 3 ↦ BB BB}` with fill bit 0 yields the 8 bytes
`AA AA 00 00 00 00 BB BB`. -/
theorem image_writer_fills_gaps (arr : FlashArray) (dbv : Char) (w : Nat)
    (hne : arr ≠ []) (hw : ∀ p ∈ arr, (Prod.snd p).length = w) :
    writeFlashArray arr dbv =
        some (((List.range (maxKey arr + 1)).map (rowOutput arr w dbv)).flatten) ∧
      (((List.range (maxKey arr + 1)).map (rowOutput arr w dbv)).flatten).length =
        (maxKey arr + 1) * w ∧
      writeFlashArray [(0, [0xAA, 0xAA]), (3, [0xBB, 0xBB])] '0' =
        some [0xAA, 0xAA, 0x00, 0x00, 0x00, 0x00, 0xBB, 0xBB] := by
  refine ⟨?_, ?_, by decide⟩
  · match arr, hne, hw with
    | (k0, d0) :: tail, _, hw =>
      have hd0 : d0.length = w := hw (k0, d0) (List.mem_cons_self _ _)
      rw [writeFlashArray]
      refine congrArg some (congrArg List.flatten (List.map_congr_left ?_))
      intro rid _
      rw [rowOutput, hd0]
  · have hrow : ∀ rid, (rowOutput arr w dbv rid).length = w := by
      intro rid
      rw [rowOutput]
      split
      · next d hd => exact hw (rid, d) (lookupAssoc_mem hd)
      · simp
    rw [List.length_flatten, List.map_map]
    have hmap : (List.range (maxKey arr + 1)).map (List.length ∘ rowOutput arr w dbv) =
        (List.range (maxKey arr + 1)).map (fun _ => w) :=
      List.map_congr_left (fun rid _ => hrow rid)
    rw [hmap, List.map_const', List.length_range, List.sum_const_nat]

/-- Witness for C2 at the array `{0 ↦ AA AA, 3 ↦ BB BB}` of uniform width 2
with fill bit 0. -/
theorem image_writer_fills_gaps_witness :
    writeFlashArray [(0, [0xAA, 0xAA]), (3, [0xBB, 0xBB])] '0' =
        some (((List.range (maxKey [(0, [0xAA, 0xAA]), (3, [0xBB, 0xBB])] + 1)).map
          (rowOutput [(0, [0xAA, 0xAA]), (3, [0xBB, 0xBB])] 2 '0')).flatten) ∧
      (((List.range (maxKey [(0, [0xAA, 0xAA]), (3, [0xBB, 0xBB])] + 1)).map
          (rowOutput [(0, [0xAA, 0xAA]), (3, [0xBB, 0xBB])] 2 '0')).flatten).length =
        (maxKey [(0, [0xAA, 0xAA]), (3, [0xBB, 0xBB])] + 1) * 2 ∧
      writeFlashArray [(0, [0xAA, 0xAA]), (3, [0xBB, 0xBB])] '0' =
        some [0xAA, 0xAA, 0x00, 0x00, 0x00, 0x00, 0xBB, 0xBB] :=
  image_writer_fills_gaps [(0, [0xAA, 0xAA]), (3, [0xBB, 0xBB])] '0' 2
    (by decide) (by decide)

/-- The record loop fails as a whole whenever any of its lines fails to
decode (with the first failing line's error). -/
theorem parseCyacdLines_error_of_mem (lines : List (List Char)) (bad : List Char)
    (e : CyacdError) (hmem : bad ∈ lines) (hbad : parseRecordLine bad = .error e) :
    ∀ mem, ∃ e', parseCyacdLines lines mem = .error e' := by
  induction lines with
  | nil => cases hmem
  | cons l rest ih =>
    intro mem
    rw [parseCyacdLines]
    cases hl : parseRecordLine l with
    | error e2 => exact ⟨e2, rfl⟩
    | ok r =>
      rcases List.mem_cons.mp hmem with rfl | hmem2
      · rw [hl] at hbad
        exact Except.noConfusion hbad
      · exact ih hmem2 _

/-- C3: if any record line fails to decode, the whole conversion yields no
output: the driver folds every line into the in-memory flash model first and
only a fully parsed model is written out. -/
theorem no_output_when_any_line_fails (headerLine bad : List Char)
    (lines : List (List Char)) (dbv : Char) (e : CyacdError)
    (hmem : bad ∈ lines) (hbad : parseRecordLine bad = .error e) :
    (convertCyacd headerLine lines dbv).toOption = none := by
  obtain ⟨e2, he2⟩ := parseCyacdLines_error_of_mem lines bad e hmem hbad []
  rw [convertCyacd]
  cases parseHeaderLine headerLine with
  | error e0 => rfl
  | ok hdr =>
    rw [show parseAllLines lines = parseCyacdLines lines [] from rfl, he2]
    rfl

/-- Witness for C3: a conversion whose only record line is whitespace-only
produces no output. -/
theorem no_output_when_any_line_fails_witness :
    (convertCyacd ("000000010000").toList [[' ']] '0').toOption = none :=
  no_output_when_any_line_fails ("000000010000").toList [' '] [[' ']] '0'
    CyacdError.MalformedRecord (by decide) rfl

theorem parseCyacdLines_append (l₁ l₂ : List (List Char)) (mem : FlashMemory) :
    parseCyacdLines (l₁ ++ l₂) mem =
      match parseCyacdLines l₁ mem with
      | .error e => .error e
      | .ok m => parseCyacdLines l₂ m := by
  induction l₁ generalizing mem with
  | nil => rfl
  | cons l rest ih =>
    rw [List.cons_append]
    rw [show parseCyacdLines (l :: (rest ++ l₂)) mem =
      (match parseRecordLine l with
        | .error e => .error e
        | .ok r => parseCyacdLines (rest ++ l₂)
            (addRowToArray mem r.array_id r.row_id r.data)) from rfl]
    rw [show parseCyacdLines (l :: rest) mem =
      (match parseRecordLine l with
        | .error e => .error e
        | .ok r => parseCyacdLines rest
            (addRowToArray mem r.array_id r.row_id r.data)) from rfl]
    cases parseRecordLine l with
    | error e => rfl
    | ok r => exact ih _

/-- C5 counterexample: appending a whitespace-only line to an otherwise valid
input changes the conversion's result from success to a `MalformedRecord`
failure — blank lines are fed to the record decoder like any other line. -/
theorem blank_line_counterexample :
    parseAllLines [(":0000000001AA55").toList] = Except.ok [(0, [(0, [0xAA])])] ∧
      parseAllLines [(":0000000001AA55").toList, [' ']] =
        Except.error CyacdError.MalformedRecord := by
  constructor
  · rfl
  · rfl

/-- C5 amended: the driver feeds every line after the header to the record
decoder, stripping leading `:` characters first and surrounding whitespace
second; a blank or whitespace-only line strips to the empty byte string,
fails as a malformed record, and aborts the conversion wherever it occurs. -/
theorem blank_lines_abort_conversion (lines₁ lines₂ : List (List Char))
    (blank : List Char) (hblank : stripWs (lstripColon blank) = []) :
    parseRecordLine blank = Except.error CyacdError.MalformedRecord ∧
      (parseAllLines (lines₁ ++ blank :: lines₂)).toOption = none := by
  have h1 : parseRecordLine blank = Except.error CyacdError.MalformedRecord := by
    rw [parseRecordLine, hblank]
    rfl
  refine ⟨h1, ?_⟩
  rw [parseAllLines, parseCyacdLines_append]
  cases parseCyacdLines lines₁ [] with
  | error e => rfl
  | ok m =>
    show (parseCyacdLines (blank :: lines₂) m).toOption = none
    rw [show parseCyacdLines (blank :: lines₂) m =
      (match parseRecordLine blank with
        | .error e => .error e
        | .ok r => parseCyacdLines lines₂
            (addRowToArray m r.array_id r.row_id r.data)) from rfl]
    rw [h1]
    rfl

/-- Witness for C5 (amended) at a single-space line. -/
theorem blank_lines_abort_conversion_witness :
    parseRecordLine [' '] = Except.error CyacdError.MalformedRecord ∧
      (parseAllLines ([] ++ [' '] :: [])).toOption = none :=
  blank_lines_abort_conversion [] [] [' '] (by decide)

theorem lookupAssoc_updateAssoc_self {α : Type} (m : List (Nat × α)) (k : Nat) (v : α) :
    lookupAssoc (updateAssoc m k v) k = some v := by
  induction m with
  | nil => simp [updateAssoc, lookupAssoc]
  | cons p rest ih =>
    obtain ⟨k0, v0⟩ := p
    by_cases hk : k = k0
    · simp [updateAssoc, lookupAssoc, hk]
    · simp [updateAssoc, lookupAssoc, hk, ih]

theorem lookupAssoc_updateAssoc_ne {α : Type} (m : List (Nat × α)) (k k' : Nat) (v : α)
    (h : k' ≠ k) : lookupAssoc (updateAssoc m k v) k' = lookupAssoc m k' := by
  induction m with
  | nil => simp [updateAssoc, lookupAssoc, h]
  | cons p rest ih =>
    obtain ⟨k0, v0⟩ := p
    by_cases hk : k = k0
    · subst hk
      simp [updateAssoc, lookupAssoc, h]
    · by_cases hk' : k' = k0
      · simp [updateAssoc, lookupAssoc, hk, hk']
      · simp [updateAssoc, lookupAssoc, hk, hk', ih]

/-- C6: inserting a record overwrites exactly the `(array_id, row_id)` cell it
names — a duplicate key gets the later record's data — and every other cell of
the flash memory is unchanged; the insertion is a total function. -/
theorem assembler_last_write_wins (mem : FlashMemory) (aid rid : Nat) (d : List Nat) :
    lookupRow (addRowToArray mem aid rid d) aid rid = some d ∧
      ∀ aid' rid', aid' ≠ aid ∨ rid' ≠ rid →
        lookupRow (addRowToArray mem aid rid d) aid' rid' = lookupRow mem aid' rid' := by
  constructor
  · rw [addRowToArray]
    cases h : lookupAssoc mem aid with
    | none =>
      rw [lookupRow, lookupAssoc_updateAssoc_self]
      simp [lookupAssoc]
    | some arr =>
      rw [lookupRow, lookupAssoc_updateAssoc_self]
      exact lookupAssoc_updateAssoc_self arr rid d
  · intro aid' rid' hne
    rw [addRowToArray]
    cases h : lookupAssoc mem aid with
    | none =>
      by_cases ha : aid' = aid
      · subst ha
        rcases hne with h1 | h2
        · exact absurd rfl h1
        · rw [lookupRow, lookupAssoc_updateAssoc_self, lookupRow, h]
          simp [lookupAssoc, h2]
      · rw [lookupRow, lookupAssoc_updateAssoc_ne mem aid aid' _ ha, lookupRow]
    | some arr =>
      by_cases ha : aid' = aid
      · subst ha
        rcases hne with h1 | h2
        · exact absurd rfl h1
        · rw [lookupRow, lookupAssoc_updateAssoc_self, lookupRow, h]
          exact lookupAssoc_updateAssoc_ne arr rid rid' d h2
      · rw [lookupRow, lookupAssoc_updateAssoc_ne mem aid aid' _ ha, lookupRow]

/-- Witness for C6: overwriting array 0 row 0 stores the new data and leaves
the (absent) cell at row 1 unchanged. -/
theorem assembler_last_write_wins_witness :
    lookupRow (addRowToArray [(0, [(0, [1])])] 0 0 [2]) 0 0 = some [2] ∧
      lookupRow (addRowToArray [(0, [(0, [1])])] 0 0 [2]) 0 1 =
        lookupRow [(0, [(0, [1])])] 0 1 :=
  ⟨(assembler_last_write_wins [(0, [(0, [1])])] 0 0 [2]).1,
    (assembler_last_write_wins [(0, [(0, [1])])] 0 0 [2]).2 0 1 (Or.inr (by decide))⟩

theorem checksum_ne_of_sum_mod_ne (x y : List Nat) (h : x.sum % 256 ≠ y.sum % 256) :
    checksum x ≠ checksum y := by
  unfold checksum
  omega

/-- C8 counterexample: the header carries no checksum at all — the valid
6-byte header `00 00 00 01 00 00` and the same header with the lowest bit of
its last byte flipped are both accepted, and the flipped one does not fail
with `ChecksumMismatch` as the claim requires. -/
theorem header_bitflip_counterexample :
    parseHeader [0x00, 0x00, 0x00, 0x01, 0x00, 0x00] = Except.ok ⟨1, 0, 0⟩ ∧
      parseHeader [0x00, 0x00, 0x00, 0x01, 0x00, 0x01] = Except.ok ⟨1, 0, 1⟩ ∧
      parseHeader [0x00, 0x00, 0x00, 0x01, 0x00, 0x01] ≠
        Except.error CyacdError.ChecksumMismatch := by
  refine ⟨rfl, rfl, ?_⟩
  intro h
  rw [show parseHeader [0x00, 0x00, 0x00, 0x01, 0x00, 0x01] =
    Except.ok ⟨1, 0, 1⟩ from rfl] at h
  exact Except.noConfusion h

/-- C8 amended: flipping any single bit of a byte of a record's data field,
without updating the record's checksum byte, makes the record decoder fail
with `ChecksumMismatch`; the header, having no checksum, offers no such
protection (see the counterexample). -/
theorem record_data_bitflip_detected (a r1 r0 l1 l0 d k : Nat) (pre suf : List Nat)
    (hlen : (pre ++ d :: suf).length = l1 * 256 + l0)
    (hd : d < 256) (hk : k < 8) :
    parseFlashRow ([a, r1, r0, l1, l0] ++ (pre ++ (d ^^^ 2 ^ k) :: suf) ++
        [checksum ([a, r1, r0, l1, l0] ++ (pre ++ d :: suf))]) =
      Except.error CyacdError.ChecksumMismatch := by
  have hlen' : (pre ++ (d ^^^ 2 ^ k) :: suf).length = l1 * 256 + l0 := by
    simpa using hlen
  rw [parseFlashRow_framed a r1 r0 l1 l0 _ _ [] hlen']
  rw [if_neg]
  apply checksum_ne_of_sum_mod_ne
  have hkle : (2 : Nat) ^ k ≤ 128 := by
    calc (2 : Nat) ^ k ≤ 2 ^ 7 := Nat.pow_le_pow_right (by norm_num) (by omega)
      _ = 128 := by norm_num
  have hdd : d ^^^ 2 ^ k ≠ d := by
    intro he
    have h0 : d ^^^ 2 ^ k = d ^^^ 0 := by
      rw [Nat.xor_zero]
      exact he
    have h2 : (2 : Nat) ^ k = 0 := Nat.xor_right_inj.mp h0
    have h3 : 0 < (2 : Nat) ^ k := pow_pos (by norm_num) k
    omega
  have hdlt : d ^^^ 2 ^ k < 256 := by
    have h8 : (2 : Nat) ^ 8 = 256 := by norm_num
    have := @Nat.xor_lt_two_pow d (2 ^ k) 8 (by omega) (by omega)
    omega
  generalize hgen : d ^^^ 2 ^ k = e at hdd hdlt ⊢
  simp only [List.sum_append, List.sum_cons]
  omega

/-- Witness for C8 (amended): the one-byte record `00 0000 0001 00` with
correct checksum, with bit 0 of its data byte flipped, is rejected with
`ChecksumMismatch`. -/
theorem record_data_bitflip_detected_witness :
    parseFlashRow ([0, 0, 0, 0, 1] ++ ([] ++ (0 ^^^ 2 ^ 0) :: []) ++
        [checksum ([0, 0, 0, 0, 1] ++ ([] ++ 0 :: []))]) =
      Except.error CyacdError.ChecksumMismatch :=
  record_data_bitflip_detected 0 0 0 0 1 0 0 [] [] (by decide) (by decide) (by decide)

theorem updateAssoc_ne_nil {α : Type} (m : List (Nat × α)) (k : Nat) (v : α) :
    updateAssoc m k v ≠ [] := by
  cases m with
  | nil => simp [updateAssoc]
  | cons p rest =>
    obtain ⟨k0, v0⟩ := p
    rw [updateAssoc]
    split <;> simp

theorem mem_updateAssoc {α : Type} {m : List (Nat × α)} {k : Nat} {v : α} {p : Nat × α}
    (hp : p ∈ updateAssoc m k v) : p = (k, v) ∨ p ∈ m := by
  induction m with
  | nil => simpa [updateAssoc] using hp
  | cons q rest ih =>
    obtain ⟨k0, v0⟩ := q
    rw [updateAssoc] at hp
    by_cases hk : k = k0
    · rw [if_pos hk] at hp
      rcases List.mem_cons.mp hp with rfl | h
      · exact Or.inl rfl
      · exact Or.inr (List.mem_cons_of_mem _ h)
    · rw [if_neg hk] at hp
      rcases List.mem_cons.mp hp with rfl | h
      · exact Or.inr (List.mem_cons_self _ _)
      · rcases ih h with h1 | h2
        · exact Or.inl h1
        · exact Or.inr (List.mem_cons_of_mem _ h2)

theorem insertRecords_arrays_nonempty (recs : List FlashRecord) (mem : FlashMemory)
    (hmem : ∀ p ∈ mem, p.2 ≠ []) : ∀ p ∈ insertRecords recs mem, p.2 ≠ [] := by
  induction recs generalizing mem with
  | nil => exact hmem
  | cons r rest ih =>
    intro p hp
    rw [insertRecords, List.foldl_cons] at hp
    refine ih (addRowToArray mem r.array_id r.row_id r.data) ?_ p hp
    intro q hq
    rw [addRowToArray] at hq
    cases h : lookupAssoc mem r.array_id with
    | none =>
      rw [h] at hq
      rcases mem_updateAssoc hq with rfl | hq2
      · simp
      · exact hmem _ hq2
    | some arr =>
      rw [h] at hq
      rcases mem_updateAssoc hq with rfl | hq2
      · exact updateAssoc_ne_nil arr r.row_id r.data
      · exact hmem _ hq2

/-- C9: every array the assembler builds from any record sequence holds at
least one row, so the image writer's `max` / first-row-width computations are
defined on it (its empty-array failure case is unreachable through the
assembler). -/
theorem assembler_arrays_nonempty (recs : List FlashRecord) (dbv : Char) :
    ∀ p ∈ insertRecords recs [], p.2 ≠ [] ∧ writeFlashArray p.2 dbv ≠ none := by
  intro p hp
  have hne := insertRecords_arrays_nonempty recs [] (by simp) p hp
  refine ⟨hne, ?_⟩
  cases h : p.2 with
  | nil => exact absurd h hne
  | cons q tail =>
    obtain ⟨k0, d0⟩ := q
    simp [writeFlashArray]

/-- Witness for C9 at the memory assembled from the single record
`(array 0, row 0, data [1])`. -/
theorem assembler_arrays_nonempty_witness :
    ([(0, [1])] : FlashArray) ≠ [] ∧ writeFlashArray [(0, [1])] '0' ≠ none :=
  assembler_arrays_nonempty [⟨0, 0, [1]⟩] '0' (0, [(0, [1])]) (by decide)

end Cyacd
